import Mathlib

/-!
# procchart

A shallow embedding of `main.go` of ShimmerGlass/procchart and the properties
proved about it.

* `F64` embeds Go's `float64` (IEEE-754 binary64, round to nearest, ties to
  even); the series of the program hold such values.
* `loopBody` is one pass through the `MainLoop` body (lines 53-82), `mainLoop`
  the loop itself, `main` the whole function as a function of what its
  environment returns.
* `Sys` and `Sys.step` embed the concurrent part: the stop channel with its two
  closers, the ticker channel and the `select` of the loop.
-/

namespace Procchart

/-! ## float64 -/

/-- A `float64`. The magnitude `mag` of a finite value counts units of `2^-1074`,
the smallest positive subnormal, so every finite binary64 value is
`(-1)^neg * mag * 2^-1074` for one natural number `mag < 2^2098`. -/
inductive F64 where
  | fin (neg : Bool) (mag : Nat)
  | inf (neg : Bool)
  | nan
  deriving DecidableEq, Repr

/-- Number of units of `2^-1074` in `1.0`. -/
def F64.one : Nat := 1 <<< 1074

/-- Spacing, in units, of the binary64 values around a magnitude of `q` units:
one unit below `2^53`, doubling with every further binade. The first argument
bounds the number of halvings; `q` itself is always enough. -/
def spacing : Nat → Nat → Nat
  | 0, _ => 1
  | fuel + 1, q => if q < 2 ^ 53 then 1 else 2 * spacing fuel (q / 2)

/-- Nearest binary64 magnitude to the non-negative rational `num / den` units,
ties to even: `k` is the number of whole steps below the value, `rem` what is
left over, compared with half a step. -/
def roundMag (num den : Nat) : Nat :=
  let q := num / den
  let step := spacing q q
  let k := num / (den * step)
  let rem := num % (den * step)
  if den * step < 2 * rem ∨ (2 * rem = den * step ∧ k % 2 = 1) then (k + 1) * step
  else k * step

/-- The binary64 result of an operation whose exact result is
`(-1)^neg * num / den` units: rounded, and infinite on overflow. -/
def F64.ofMag (neg : Bool) (num den : Nat) : F64 :=
  let m := roundMag num den
  if m < 1 <<< 2098 then .fin neg m else .inf neg

/-- Conversion `float64(i)` of an integer. -/
def F64.ofInt (i : Int) : F64 :=
  F64.ofMag (decide (i < 0)) (i.natAbs * F64.one) 1

/-- Conversion `float64(n)` of an unsigned integer. -/
def F64.ofNat (n : Nat) : F64 :=
  F64.ofMag false (n * F64.one) 1

/-- The constant `0.0`. -/
def F64.zero : F64 := .fin false 0

/-- Go's `x + y` on float64. -/
def F64.add : F64 → F64 → F64
  | .nan, _ => .nan
  | _, .nan => .nan
  | .inf a, .inf b => if a = b then .inf a else .nan
  | .inf a, .fin _ _ => .inf a
  | .fin _ _, .inf b => .inf b
  | .fin a x, .fin b y =>
    if a = b then F64.ofMag a (x + y) 1
    else if x = y then .fin false 0
    else if y < x then F64.ofMag a (x - y) 1
    else F64.ofMag b (y - x) 1

/-- Go's `x / y` on float64. -/
def F64.div : F64 → F64 → F64
  | .nan, _ => .nan
  | _, .nan => .nan
  | .inf _, .inf _ => .nan
  | .inf a, .fin b _ => .inf (xor a b)
  | .fin a _, .inf b => .fin (xor a b) 0
  | .fin a x, .fin b y =>
    if y = 0 then (if x = 0 then .nan else .inf (xor a b))
    else F64.ofMag (xor a b) (x * F64.one) y

/-- The value of a finite float64 as a signed number of units. -/
def F64.signed (neg : Bool) (mag : Nat) : Int :=
  if neg then -(mag : Int) else (mag : Int)

/-- Go's `x < y` on float64 (false when either side is NaN). -/
def F64.lt : F64 → F64 → Bool
  | .nan, _ => false
  | _, .nan => false
  | .inf a, .inf b => a && !b
  | .inf a, .fin _ _ => a
  | .fin _ _, .inf b => !b
  | .fin a x, .fin b y => decide (F64.signed a x < F64.signed b y)

/-! ## time.Duration -/

/-- The constant `time.Second`, in nanoseconds. -/
def Second : Int := 1000000000

/-- The method `Duration.Seconds` of package time:
`sec := d / Second; nsec := d % Second; return float64(sec) + float64(nsec)/1e9`.
Go's `/` and `%` on integers truncate towards zero. -/
def Seconds (d : Int) : F64 :=
  let sec := Int.tdiv d Second
  let nsec := Int.tmod d Second
  F64.add (F64.ofInt sec) (F64.div (F64.ofInt nsec) (F64.ofNat 1000000000))

/-! ## The sampling loop -/

/-- An `error` value, by its message. -/
abbrev Err := String

/-- The flags of the command line (lines 19-23); `interval` and `duration` are
`time.Duration` values, that is nanoseconds. -/
structure Config where
  pid : Int
  interval : Int
  duration : Int
  out : String

/-- The result of `MemoryInfoWithContext`; the program reads the field `RSS`
(a `uint64`) only. -/
structure MemoryInfoStat where
  RSS : Nat
  deriving DecidableEq, Repr

/-- What the two queries of one tick return: `p.PercentWithContext(ctx, 0)` and
`p.MemoryInfoWithContext(ctx)`. -/
structure Queries where
  cpu : Except Err F64
  mem : Except Err MemoryInfoStat

/-- Both queries of the tick return a value. -/
def Queries.succeeds (q : Queries) : Bool :=
  match q.cpu, q.mem with
  | .ok _, .ok _ => true
  | _, _ => false

/-- The variables of `main` that the loop updates (lines 43-51). -/
structure LoopState where
  cpuSeries : List F64
  memSeries : List F64
  timeSeries : List F64
  maxMem : F64
  gt : F64
  deriving DecidableEq, Repr

/-- The state in which the loop is entered: three empty series, `maxMem := 0.0`,
`gt := 0.0`. -/
def LoopState.init : LoopState :=
  { cpuSeries := [], memSeries := [], timeSeries := [], maxMem := F64.zero, gt := F64.zero }

/-- The case with which the `select` of lines 55-59 returns: a tick received
from `t.C` (with what the queries of this iteration will return), or the closed
`stop` channel. -/
inductive Wake where
  | tick (q : Queries)
  | stop

/-- How one pass through the body of `MainLoop` ends: at the closing brace, at
`break MainLoop`, or in `log.Fatal(err)`, which exits the process; `fatal`
records the variables as they are at that call. -/
inductive Iter where
  | next (s : LoopState)
  | brk (s : LoopState)
  | fatal (e : Err) (s : LoopState)
  deriving DecidableEq, Repr

/-- One pass through the body of `MainLoop` (lines 53-82). -/
def loopBody (interval : Int) (s : LoopState) : Wake → Iter
  | .stop => .brk s
  | .tick q =>
    match q.cpu with
    | .error e => .fatal e s
    | .ok cpu =>
      let s1 := { s with cpuSeries := s.cpuSeries ++ [cpu] }
      match q.mem with
      | .error e => .fatal e s1
      | .ok mem =>
        let s2 := { s1 with memSeries := s1.memSeries ++ [F64.ofNat mem.RSS] }
        let s3 := if F64.lt s2.maxMem (F64.ofNat mem.RSS) then
            { s2 with maxMem := F64.ofNat mem.RSS } else s2
        let s4 := { s3 with gt := F64.add s3.gt (Seconds interval) }
        .next { s4 with timeSeries := s4.timeSeries ++ [s4.gt] }

/-- Where the loop stands after a finite sequence of wake-ups: still waiting in
`select`, left through `break MainLoop`, or exited in `log.Fatal`. -/
inductive LoopResult where
  | running (s : LoopState)
  | exited (s : LoopState)
  | fatal (e : Err) (s : LoopState)
  deriving DecidableEq, Repr

/-- The loop `MainLoop`, run on the sequence of wake-ups of its `select`. -/
def mainLoop (interval : Int) : LoopState → List Wake → LoopResult
  | s, [] => .running s
  | s, w :: ws =>
    match loopBody interval s w with
    | .next s1 => mainLoop interval s1 ws
    | .brk s1 => .exited s1
    | .fatal e s1 => .fatal e s1

/-! ## The chart -/

/-- The value `chart.ContinuousRange` of the secondary axis. -/
structure ContinuousRange where
  Min : F64
  Max : F64
  deriving DecidableEq, Repr

/-- A `chart.ContinuousSeries`; `secondary` is `YAxis: chart.YAxisSecondary`. -/
structure ContinuousSeries where
  Name : String
  secondary : Bool
  YValues : List F64
  XValues : List F64
  deriving DecidableEq, Repr

/-- The fields of `chart.Chart` that depend on the collected data, and the
names of the axes. -/
structure Chart where
  XAxisName : String
  YAxisName : String
  YAxisSecondaryName : String
  YAxisSecondaryRange : ContinuousRange
  Series : List ContinuousSeries
  deriving DecidableEq, Repr

/-- The chart built at lines 86-153 from the variables the loop leaves. -/
def graph (s : LoopState) : Chart :=
  { XAxisName := "Seconds"
    YAxisName := "CPU"
    YAxisSecondaryName := "RAM"
    YAxisSecondaryRange := { Min := F64.zero, Max := s.maxMem }
    Series :=
      [ { Name := "CPU", secondary := false, YValues := s.cpuSeries, XValues := s.timeSeries },
        { Name := "RAM", secondary := true, YValues := s.memSeries, XValues := s.timeSeries } ] }

/-! ## main, as a function of what its environment returns -/

/-- Everything one execution of `main` receives from outside: the result of
`process.NewProcess`, the wake-ups of the loop, the results of `os.OpenFile`
and of `graph.Render`. -/
structure Env where
  newProcess : Except Err Unit
  wakes : List Wake
  openFile : Except Err Unit
  render : Except Err Unit

/-- How an execution of `main` ends: in `log.Fatal`, in a panic, still waiting
in the loop when the wake-ups are used up, or returning after the chart has been
rendered into the output file. -/
inductive Outcome where
  | fatal (e : Err)
  | panic (msg : String)
  | waiting (s : LoopState)
  | done (g : Chart)
  deriving DecidableEq, Repr

/-- The function `time.NewTicker` of the Go standard library panics with this
message when its argument is not positive. -/
def tickerPanic : String := "non-positive interval for NewTicker"

/-- The function `main`. -/
def main (cfg : Config) (env : Env) : Outcome :=
  match env.newProcess with
  | .error e => .fatal e
  | .ok _ =>
    if cfg.interval ≤ 0 then .panic tickerPanic
    else
      match mainLoop cfg.interval LoopState.init env.wakes with
      | .running s => .waiting s
      | .fatal e _ => .fatal e
      | .exited s =>
        match env.openFile with
        | .error e => .fatal e
        | .ok _ =>
          match env.render with
          | .error e => .fatal e
          | .ok _ => .done (graph s)

/-! ## The stop channel, the ticker and the select of the loop -/

/-- Where the main goroutine stands: in `MainLoop`, past it (building and
rendering the chart), or gone: exited by `log.Fatal`, crashed by a panic of any
goroutine, or returned from `main`. -/
inductive Phase where
  | sampling (s : LoopState)
  | rendering (s : LoopState)
  | fatal (e : Err)
  | panicked (msg : String)
  | done (g : Chart)
  deriving DecidableEq, Repr

/-- The running program: the channel `stop` (open or closed), the timer of
`time.AfterFunc` (pending or not), the goroutine of lines 38-41 (still waiting
on `sigs` or not), the channel `t.C` of the ticker, which buffers one tick, and
the main goroutine. -/
structure Sys where
  interval : Int
  stopClosed : Bool
  timerArmed : Bool
  sigWaiting : Bool
  tickReady : Bool
  phase : Phase
  deriving DecidableEq, Repr

/-- What can happen next. `timerFire`: the duration has elapsed and the callback
of `AfterFunc` runs. `interrupt`: a SIGINT or SIGTERM is delivered and the
goroutine receives it from `sigs`. `tickerFire`: the ticker sends on `t.C`.
`iterate`: the main goroutine performs one `select` and, if that returns, the
rest of the loop body; `preferTick` is the choice `select` makes when both cases
are ready and `q` what the queries return. `finish`: the main goroutine, past the
loop, opens the file and renders. -/
inductive Event where
  | timerFire
  | interrupt
  | tickerFire
  | iterate (preferTick : Bool) (q : Queries)
  | finish (openFile : Except Err Unit) (render : Except Err Unit)

/-- The message of the run-time panic of `close` on a closed channel. -/
def closePanic : String := "close of closed channel"

/-- The statement `close(stop)`: closes an open channel, panics on a closed one,
and a panic in any goroutine crashes the program. -/
def closeStop (sys : Sys) : Sys :=
  if sys.stopClosed then { sys with phase := .panicked closePanic }
  else { sys with stopClosed := true }

/-- The `select` of lines 55-59: it blocks (`none`) while neither channel is
ready, takes the ready case when there is one, and when both are ready picks
one of them; the pick is `preferTick`. -/
def selectWake (tickReady stopClosed preferTick : Bool) (q : Queries) : Option Wake :=
  match tickReady, stopClosed with
  | false, false => none
  | true, false => some (.tick q)
  | false, true => some .stop
  | true, true => some (if preferTick then .tick q else .stop)

/-- The program at the entry of `MainLoop` (lines 19-52): `NewProcess` may fail
fatally; the timer is armed when `*duration > 0`; the signal goroutine waits;
`NewTicker` panics on a non-positive interval. -/
def start (cfg : Config) (newProcess : Except Err Unit) : Sys :=
  match newProcess with
  | .error e =>
    { interval := cfg.interval, stopClosed := false, timerArmed := false,
      sigWaiting := false, tickReady := false, phase := .fatal e }
  | .ok _ =>
    { interval := cfg.interval, stopClosed := false,
      timerArmed := decide (0 < cfg.duration), sigWaiting := true, tickReady := false,
      phase := if cfg.interval ≤ 0 then .panicked tickerPanic else .sampling LoopState.init }

/-- The process has exited: nothing happens any more. -/
def Phase.gone : Phase → Bool
  | .sampling _ => false
  | .rendering _ => false
  | _ => true

/-- One iteration of `MainLoop` in the running program: nothing while `select`
blocks; otherwise the body, which has consumed the tick of `t.C` unless it left
through `break`. -/
def Sys.iterate (sys : Sys) (preferTick : Bool) (q : Queries) : Sys :=
  match sys.phase with
  | .sampling s =>
    match selectWake sys.tickReady sys.stopClosed preferTick q with
    | none => sys
    | some w =>
      match loopBody sys.interval s w with
      | .next s1 => { sys with tickReady := false, phase := .sampling s1 }
      | .brk s1 => { sys with phase := .rendering s1 }
      | .fatal e _ => { sys with tickReady := false, phase := .fatal e }
  | _ => sys

/-- The effect of one event. -/
def Sys.step (sys : Sys) (ev : Event) : Sys :=
  if sys.phase.gone then sys
  else
    match ev with
    | .timerFire =>
      if sys.timerArmed then closeStop { sys with timerArmed := false } else sys
    | .interrupt =>
      if sys.sigWaiting then closeStop { sys with sigWaiting := false } else sys
    | .tickerFire => { sys with tickReady := true }
    | .iterate preferTick q => sys.iterate preferTick q
    | .finish openFile render =>
      match sys.phase with
      | .rendering s =>
        match openFile with
        | .error e => { sys with phase := .fatal e }
        | .ok _ =>
          match render with
          | .error e => { sys with phase := .fatal e }
          | .ok _ => { sys with phase := .done (graph s) }
      | _ => sys

/-- The effect of a sequence of events. -/
def Sys.run (sys : Sys) (trace : List Event) : Sys :=
  trace.foldl Sys.step sys

/-! ## Runs used in the statements -/

/-- Queries that return the CPU value `t.1` and the resident set size `t.2`. -/
def okQueries (t : F64 × Nat) : Queries :=
  { cpu := .ok t.1, mem := .ok { RSS := t.2 } }

/-- A tick whose queries succeed. -/
def okTick (t : F64 × Nat) : Wake :=
  .tick (okQueries t)

/-- The events of a run in which the ticker fires and the loop takes the tick,
once for every entry of `ticks`. -/
def tickTrace (preferTick : Bool) : List (F64 × Nat) → List Event
  | [] => []
  | t :: ts => .tickerFire :: .iterate preferTick (okQueries t) :: tickTrace preferTick ts

/-- The events that wake the loop as a list of wake-ups says: for a tick the
ticker fires and the loop iterates; for a stop an interrupt is delivered and the
loop iterates. -/
def wakeTrace : List Wake → List Event
  | [] => []
  | .tick q :: ws => .tickerFire :: .iterate true q :: wakeTrace ws
  | .stop :: ws =>
    .interrupt :: .iterate false { cpu := .error "", mem := .error "" } :: wakeTrace ws

/-- The phase of the main goroutine that corresponds to a result of the loop. -/
def LoopResult.phase : LoopResult → Phase
  | .running s => .sampling s
  | .exited s => .rendering s
  | .fatal e _ => .fatal e

/-- An event that is neither an interrupt nor an iteration with a failing
query. -/
def Event.quiet : Event → Bool
  | .interrupt => false
  | .iterate _ q => q.succeeds
  | _ => true

/-- One instant of a run in which the loop keeps up with its events: the events
of the instant, then the main goroutine iterates until `select` blocks or the
loop is left, which takes two iterations at most because `t.C` holds one tick. -/
def instant (evs : List Event) (preferTick : Bool) (t : F64 × Nat) : List Event :=
  evs ++ [.iterate preferTick (okQueries t), .iterate preferTick (okQueries t)]

/-- A run with a tick at 1s, a tick at 2s, and at 3s the events `third`: the
third tick and the duration timer. -/
def threeSecondRun (third : List Event) (c1 c2 c3 : Bool) (t1 t2 t3 : F64 × Nat) :
    List Event :=
  instant [.tickerFire] c1 t1 ++ instant [.tickerFire] c2 t2 ++ instant third c3 t3

/-- The flags `-interval 1s -duration 3s`. -/
def threeSeconds : Config :=
  { pid := 1, interval := 1000000000, duration := 3000000000, out := "graph.png" }

/-- The wake-ups of a run of successful ticks ended by the stop signal. -/
def sampleRun (ticks : List (F64 × Nat)) : List Wake :=
  ticks.map okTick ++ [.stop]

/-- The variables after a tick whose queries return `t`, when they were `s`
before it; `loopBody_okTick` proves that this is what `loopBody` computes. -/
def sample (interval : Int) (s : LoopState) (t : F64 × Nat) : LoopState :=
  { cpuSeries := s.cpuSeries ++ [t.1]
    memSeries := s.memSeries ++ [F64.ofNat t.2]
    timeSeries := s.timeSeries ++ [F64.add s.gt (Seconds interval)]
    maxMem := if F64.lt s.maxMem (F64.ofNat t.2) then F64.ofNat t.2 else s.maxMem
    gt := F64.add s.gt (Seconds interval) }

/-- A float64 that is neither negative nor NaN: what `float64(mem.RSS)` always
is. -/
def F64.isNonneg : F64 → Bool
  | .fin false _ => true
  | .inf false => true
  | _ => false

/-- The relation between `maxMem` and `memSeries` that every successful tick
keeps: `maxMem` is not below any entry, it is one of the entries once there is
one, and it is `0.0` before. -/
def MaxInv (s : LoopState) : Prop :=
  s.maxMem.isNonneg = true ∧
  (∀ x ∈ s.memSeries, x.isNonneg = true ∧ F64.lt s.maxMem x = false) ∧
  (s.memSeries = [] → s.maxMem = F64.zero) ∧
  (s.memSeries ≠ [] → s.maxMem ∈ s.memSeries)

/-- The time series as the specification words it: the `k`-th entry, counting
from 1, is `k` times the interval, in seconds: the float64 quotient of
`k * interval` nanoseconds by `10^9`. -/
def claimedTimeSeries (interval : Int) (n : Nat) : List F64 :=
  (List.range n).map fun k =>
    F64.div (F64.ofInt (((k : Int) + 1) * interval)) (F64.ofNat 1000000000)

/-- A magnitude that a finite float64 has: below `2^2098` units and a 53-bit
natural number times a power of two. -/
def F64.representable (n : Nat) : Prop :=
  n < 1 <<< 2098 ∧ ∃ a j : Nat, a < 2 ^ 53 ∧ n = a * 2 ^ j

/-- The value `gt` after `k` more additions of `d`. -/
def accumulate (d : F64) : Nat → F64 → F64
  | 0, g => g
  | k + 1, g => accumulate d k (F64.add g d)

set_option maxRecDepth 100000
set_option exponentiation.threshold 4000

/-! ## Exact float64 arithmetic on small whole numbers -/

theorem F64.one_eq : F64.one = 2 ^ 1074 := Nat.one_shiftLeft 1074

theorem spacing_pos (fuel q : Nat) : 0 < spacing fuel q := by
  induction fuel generalizing q with
  | zero => simp [spacing]
  | succ f ih =>
    unfold spacing
    split
    · exact Nat.one_pos
    · have := ih (q / 2)
      omega

theorem spacing_dvd (fuel : Nat) : ∀ a j : Nat, a < 2 ^ 53 → spacing fuel (a * 2 ^ j) ∣ a * 2 ^ j := by
  induction fuel with
  | zero => intro a j _; simp [spacing]
  | succ f ih =>
    intro a j ha
    unfold spacing
    split
    · exact one_dvd _
    · rename_i hq
      cases j with
      | zero => simp at hq; omega
      | succ j =>
        have h2 : a * 2 ^ (j + 1) = 2 * (a * 2 ^ j) := by ring
        rw [h2, Nat.mul_div_cancel_left _ (by decide : 0 < 2)]
        exact Nat.mul_dvd_mul_left 2 (ih a j ha)

theorem roundMag_exact (a j : Nat) (ha : a < 2 ^ 53) : roundMag (a * 2 ^ j) 1 = a * 2 ^ j := by
  have hd := spacing_dvd (a * 2 ^ j) a j ha
  have hp := spacing_pos (a * 2 ^ j) (a * 2 ^ j)
  unfold roundMag
  simp only [Nat.div_one, Nat.one_mul]
  have hrem : a * 2 ^ j % spacing (a * 2 ^ j) (a * 2 ^ j) = 0 := Nat.mod_eq_zero_of_dvd hd
  rw [hrem]
  have hne : ¬ (spacing (a * 2 ^ j) (a * 2 ^ j) < 2 * 0 ∨
      (2 * 0 = spacing (a * 2 ^ j) (a * 2 ^ j) ∧
        a * 2 ^ j / spacing (a * 2 ^ j) (a * 2 ^ j) % 2 = 1)) := by
    omega
  rw [if_neg hne]
  exact Nat.div_mul_cancel hd

theorem two_pow_2098 : (1 : Nat) <<< 2098 = 2 ^ 2098 := Nat.one_shiftLeft 2098

theorem ofMag_exact (neg : Bool) (a : Nat) (ha : a ≤ 2 ^ 53) :
    F64.ofMag neg (a * F64.one) 1 = .fin neg (a * F64.one) := by
  have hr : roundMag (a * F64.one) 1 = a * F64.one := by
    rw [F64.one_eq]
    rcases Nat.lt_or_ge a (2 ^ 53) with h | h
    · exact roundMag_exact a 1074 h
    · have e : a = 2 ^ 53 := le_antisymm ha h
      have e2 : a * 2 ^ 1074 = 2 ^ 52 * 2 ^ 1075 := by rw [e]; decide
      rw [e2]
      exact roundMag_exact (2 ^ 52) 1075 (by decide)
  have hlt : a * F64.one < 1 <<< 2098 := by
    rw [F64.one_eq, two_pow_2098]
    calc a * 2 ^ 1074 ≤ 2 ^ 53 * 2 ^ 1074 := Nat.mul_le_mul_right _ ha
      _ < 2 ^ 2098 := by decide
  unfold F64.ofMag
  simp only [hr, hlt, if_true]

theorem add_exact (a b : Nat) (h : a + b ≤ 2 ^ 53) :
    F64.add (.fin false (a * F64.one)) (.fin false (b * F64.one))
      = .fin false ((a + b) * F64.one) := by
  simp only [F64.add, if_true]
  rw [← Nat.add_mul]
  exact ofMag_exact false (a + b) h

theorem roundMag_zero (den : Nat) : roundMag 0 den = 0 := by
  simp [roundMag, spacing]

theorem Seconds_whole (s : Nat) (hs : s ≤ 2 ^ 53) :
    Seconds ((s : Int) * Second) = .fin false (s * F64.one) := by
  have hsec : Int.tdiv ((s : Int) * Second) Second = (s : Int) := by
    simp [Second, Int.tdiv_eq_ediv]
  have hns : Int.tmod ((s : Int) * Second) Second = 0 := by
    simp [Second, Int.tmod_eq_emod]
  have h0 : F64.ofInt 0 = .fin false 0 := by
    simp [F64.ofInt, F64.ofMag, roundMag_zero]
  have hS : F64.ofInt (s : Int) = .fin false (s * F64.one) := by
    have := ofMag_exact false s hs
    simpa [F64.ofInt] using this
  have hG : F64.ofNat 1000000000 = .fin false (1000000000 * F64.one) :=
    ofMag_exact false 1000000000 (by decide)
  have hone : F64.one ≠ 0 := by rw [F64.one_eq]; exact pow_ne_zero _ (by decide)
  have hdiv : F64.div (.fin false 0) (.fin false (1000000000 * F64.one)) = .fin false 0 := by
    simp [F64.div, hone, F64.ofMag, roundMag_zero]
  unfold Seconds
  simp only [hsec, hns, h0, hS, hG, hdiv]
  have := add_exact s 0 (by simpa using hs)
  simpa using this

theorem accumulate_exact (s : Nat) : ∀ (k a : Nat), a + k * s ≤ 2 ^ 53 →
    accumulate (.fin false (s * F64.one)) k (.fin false (a * F64.one))
      = .fin false ((a + k * s) * F64.one) := by
  intro k
  induction k with
  | zero => intro a _; simp [accumulate]
  | succ k ih =>
    intro a h
    have h1 : a + s ≤ 2 ^ 53 := by
      have : a + s ≤ a + (k + 1) * s := by
        have : s ≤ (k + 1) * s := Nat.le_mul_of_pos_left s (Nat.succ_pos k)
        omega
      omega
    have h2 : (a + s) + k * s ≤ 2 ^ 53 := by
      have : (a + s) + k * s = a + (k + 1) * s := by ring
      omega
    simp only [accumulate]
    rw [add_exact a s h1, ih (a + s) h2]
    congr 2
    ring

/-- The spacing around `q` is one unit or at most `q / 2^52`. -/
theorem spacing_le (fuel : Nat) : ∀ q : Nat, spacing fuel q = 1 ∨ spacing fuel q * 2 ^ 52 ≤ q := by
  induction fuel with
  | zero => intro q; left; rfl
  | succ f ih =>
    intro q
    unfold spacing
    split
    · left; rfl
    · rename_i hq
      right
      rcases ih (q / 2) with h | h
      · rw [h]
        have : (2:Nat) ^ 53 = 2 * 1 * 2 ^ 52 := by norm_num
        omega
      · have h2 : 2 * (q / 2) ≤ q := Nat.mul_div_le q 2
        calc 2 * spacing f (q / 2) * 2 ^ 52 = 2 * (spacing f (q / 2) * 2 ^ 52) := by ring
          _ ≤ 2 * (q / 2) := Nat.mul_le_mul_left 2 h
          _ ≤ q := h2

/-- Rounding moves a value by half a step at most. -/
theorem roundMag_near (num den : Nat) (hden : 0 < den) :
    2 * num ≤ 2 * (roundMag num den * den) + den * spacing (num / den) (num / den) ∧
    2 * (roundMag num den * den) ≤ 2 * num + den * spacing (num / den) (num / den) := by
  have hs := spacing_pos (num / den) (num / den)
  unfold roundMag
  simp only
  generalize spacing (num / den) (num / den) = s at hs ⊢
  have hD : 0 < den * s := Nat.mul_pos hden hs
  have hdm := Nat.div_add_mod num (den * s)
  have hlt := Nat.mod_lt num hD
  have e1 : (num / (den * s) + 1) * s * den = den * s * (num / (den * s)) + den * s := by ring
  have e2 : num / (den * s) * s * den = den * s * (num / (den * s)) := by ring
  split
  · rename_i h
    rw [e1]
    generalize den * s * (num / (den * s)) = K at *
    generalize num % (den * s) = r at *
    generalize den * s = D at *
    omega
  · rename_i h
    rw [e2]
    generalize den * s * (num / (den * s)) = K at *
    generalize num % (den * s) = r at *
    generalize den * s = D at *
    omega

/-- One addition of a positive `m` to `x`, while `x + m` is below `2^53 * m`. -/
theorem add_step (x m : Nat) (hm : 0 < m) (hx : x + m < 2 ^ 53 * m)
    (hb : 2 ^ 54 * m < 2 ^ 2098) :
    ∃ y, F64.add (.fin false x) (.fin false m) = .fin false y ∧ x < y ∧ y < x + 2 * m := by
  obtain ⟨h1, h2⟩ := roundMag_near (x + m) 1 Nat.one_pos
  have hsp := spacing_le ((x + m) / 1) ((x + m) / 1)
  simp only [Nat.div_one, Nat.one_mul, Nat.mul_one] at h1 h2 hsp
  have hs2 : spacing (x + m) (x + m) < 2 * m := by
    rcases hsp with h | h
    · omega
    · by_contra hc
      have hc : 2 * m ≤ spacing (x + m) (x + m) := not_lt.mp hc
      have : 2 * m * 2 ^ 52 ≤ spacing (x + m) (x + m) * 2 ^ 52 := Nat.mul_le_mul_right _ hc
      have e : 2 * m * 2 ^ 52 = 2 ^ 53 * m := by ring
      omega
  refine ⟨roundMag (x + m) 1, ?_, by omega, by omega⟩
  have hlt : roundMag (x + m) 1 < 1 <<< 2098 := by
    rw [two_pow_2098]; omega
  simp only [F64.add, if_true, F64.ofMag, hlt]


/-- The magnitudes reached by repeated addition of `m` grow strictly, while
twice the number of additions times `m` stays below `2^53 * m`. -/
theorem accumulate_increasing (m : Nat) (hm : 0 < m) (hb : 2 ^ 54 * m < 2 ^ 2098) :
    ∀ (n x : Nat), x + 2 * n * m ≤ 2 ^ 53 * m →
      ∃ ys : List Nat,
        (List.range n).map (fun k => accumulate (.fin false m) (k + 1) (.fin false x))
          = ys.map (F64.fin false) ∧
        ys.Pairwise (· < ·) ∧ ∀ y ∈ ys, x < y := by
  intro n
  induction n with
  | zero => intro x _; exact ⟨[], by simp, by simp, by simp⟩
  | succ n ih =>
    intro x hx
    have hx1 : x + m < 2 ^ 53 * m := by
      have : 2 * (n + 1) * m = 2 * n * m + m + m := by ring
      omega
    obtain ⟨y, hy, hxy, hy2⟩ := add_step x m hm hx1 hb
    have hy3 : y + 2 * n * m ≤ 2 ^ 53 * m := by
      have : 2 * (n + 1) * m = 2 * n * m + 2 * m := by ring
      omega
    obtain ⟨ys, h1, h2, h3⟩ := ih y hy3
    refine ⟨y :: ys, ?_, ?_, ?_⟩
    · rw [List.range_succ_eq_map]
      simp only [List.map_cons, List.map_map, accumulate, hy, List.cons.injEq, true_and]
      rw [← h1]
      apply List.map_congr_left
      intro k _
      simp [accumulate, hy]
    · exact List.pairwise_cons.mpr ⟨h3, h2⟩
    · intro z hz
      rcases List.mem_cons.mp hz with rfl | hz
      · exact hxy
      · exact lt_trans hxy (h3 z hz)


theorem roundMag_pos (num den : Nat) (hden : 0 < den) (h : den < 2 * num) :
    0 < roundMag num den := by
  obtain ⟨h1, _⟩ := roundMag_near num den hden
  have hsp := spacing_le (num / den) (num / den)
  by_contra hc
  have h0 : roundMag num den = 0 := by omega
  rw [h0] at h1
  simp only [Nat.zero_mul, Nat.mul_zero, Nat.zero_add] at h1
  rcases hsp with hs | hs
  · rw [hs] at h1; omega
  · have hq : den * (num / den) ≤ num := Nat.mul_div_le num den
    have h3 : den * (spacing (num / den) (num / den) * 2 ^ 52) ≤ den * (num / den) :=
      Nat.mul_le_mul_left den hs
    have h4 : den * (spacing (num / den) (num / den) * 2 ^ 52)
        = den * spacing (num / den) (num / den) * 2 ^ 52 := by ring
    generalize den * spacing (num / den) (num / den) = D at *
    omega

theorem roundMag_le (num den : Nat) (hden : 0 < den) :
    2 * (roundMag num den * den) ≤ 3 * num + den := by
  obtain ⟨_, h2⟩ := roundMag_near num den hden
  have hsp := spacing_le (num / den) (num / den)
  rcases hsp with hs | hs
  · rw [hs] at h2; omega
  · have hq : den * (num / den) ≤ num := Nat.mul_div_le num den
    have h3 : den * (spacing (num / den) (num / den) * 2 ^ 52) ≤ den * (num / den) :=
      Nat.mul_le_mul_left den hs
    have h4 : den * (spacing (num / den) (num / den) * 2 ^ 52)
        = den * spacing (num / den) (num / den) * 2 ^ 52 := by ring
    generalize den * spacing (num / den) (num / den) = D at *
    omega

/-- For a positive `int64` duration `Seconds` is a positive finite float64, far
from overflow. -/
theorem Seconds_pos (d : Int) (hpos : 0 < d) (hmax : d < 2 ^ 63) :
    ∃ m, Seconds d = .fin false m ∧ 0 < m ∧ 2 ^ 54 * m < 2 ^ 2098 := by
  lift d to Nat using le_of_lt hpos
  have hd0 : 0 < d := by exact_mod_cast hpos
  have hdm : d < 2 ^ 63 := by exact_mod_cast hmax
  have hsec : Int.tdiv (d : Int) Second = ((d / 1000000000 : Nat) : Int) := by
    unfold Second
    rw [Int.tdiv_eq_ediv (Int.ofNat_nonneg d) (by decide)]
    exact (Int.ofNat_ediv d 1000000000).symm
  have hns : Int.tmod (d : Int) Second = ((d % 1000000000 : Nat) : Int) := by
    unfold Second
    rw [Int.tmod_eq_emod (Int.ofNat_nonneg d) (by decide)]
    exact (Int.ofNat_emod d 1000000000).symm
  have ha : d / 1000000000 < 2 ^ 34 := by omega
  have hbl : d % 1000000000 < 1000000000 := Nat.mod_lt _ (by decide)
  have hA : F64.ofInt ((d / 1000000000 : Nat) : Int)
      = .fin false (d / 1000000000 * F64.one) := by
    have := ofMag_exact false (d / 1000000000) (by omega)
    simpa [F64.ofInt] using this
  have hB : F64.ofInt ((d % 1000000000 : Nat) : Int)
      = .fin false (d % 1000000000 * F64.one) := by
    have := ofMag_exact false (d % 1000000000) (by omega)
    simpa [F64.ofInt] using this
  have hG : F64.ofNat 1000000000 = .fin false (1000000000 * F64.one) :=
    ofMag_exact false 1000000000 (by decide)
  have hone : 0 < F64.one := by rw [F64.one_eq]; exact Nat.pos_pow_of_pos _ (by decide)
  have hden : 0 < 1000000000 * F64.one := Nat.mul_pos (by decide) hone
  -- the quotient float64(nsec) / 1e9
  have hr2 := roundMag_le (d % 1000000000 * F64.one * F64.one) (1000000000 * F64.one) hden
  have hr3 : roundMag (d % 1000000000 * F64.one * F64.one) (1000000000 * F64.one)
      ≤ 2 * F64.one := by
    have h5 : d % 1000000000 * F64.one * F64.one ≤ 1000000000 * F64.one * F64.one :=
      Nat.mul_le_mul_right _ (Nat.mul_le_mul_right _ (le_of_lt hbl))
    have h6 : 2 * (roundMag (d % 1000000000 * F64.one * F64.one) (1000000000 * F64.one)
        * (1000000000 * F64.one)) ≤ (3 * F64.one + 1) * (1000000000 * F64.one) := by
      have : (3 * F64.one + 1) * (1000000000 * F64.one)
          = 3 * (1000000000 * F64.one * F64.one) + 1000000000 * F64.one := by ring
      omega
    have h7 : 2 * roundMag (d % 1000000000 * F64.one * F64.one) (1000000000 * F64.one)
        ≤ 3 * F64.one + 1 := by
      have h8 : 2 * (roundMag (d % 1000000000 * F64.one * F64.one) (1000000000 * F64.one)
        * (1000000000 * F64.one)) = 2 * roundMag (d % 1000000000 * F64.one * F64.one)
          (1000000000 * F64.one) * (1000000000 * F64.one) := by ring
      rw [h8] at h6
      exact Nat.le_of_mul_le_mul_right h6 hden
    omega
  have hr4 : roundMag (d % 1000000000 * F64.one * F64.one) (1000000000 * F64.one)
      < 1 <<< 2098 := by
    rw [two_pow_2098]
    have : 2 * F64.one < 2 ^ 2098 := by rw [F64.one_eq]; decide
    omega
  have hdiv : F64.div (.fin false (d % 1000000000 * F64.one))
      (.fin false (1000000000 * F64.one))
      = .fin false (roundMag (d % 1000000000 * F64.one * F64.one) (1000000000 * F64.one)) := by
    simp only [F64.div, Nat.ne_of_gt hden, if_false, F64.ofMag, hr4, if_true, Bool.xor_false]
  -- the sum float64(sec) + quotient
  generalize hrdef : roundMag (d % 1000000000 * F64.one * F64.one) (1000000000 * F64.one)
    = r at hr3 hr4 hdiv
  have hnum : 1 < 2 * (d / 1000000000 * F64.one + r) := by
    rcases Nat.eq_zero_or_pos (d / 1000000000) with hz | hp
    · have hsmall : d % 1000000000 = d := by omega
      have hrp : 0 < r := by
        rw [← hrdef]
        apply roundMag_pos _ _ hden
        rw [hsmall]
        have h1 : 1000000000 * F64.one < 2 * (1 * F64.one * F64.one) := by
          rw [F64.one_eq]; decide
        have h2 : 1 * F64.one * F64.one ≤ d * F64.one * F64.one :=
          Nat.mul_le_mul_right _ (Nat.mul_le_mul_right _ hd0)
        omega
      omega
    · have : 1 * F64.one ≤ d / 1000000000 * F64.one := Nat.mul_le_mul_right _ hp
      omega
  have hm1 := roundMag_pos (d / 1000000000 * F64.one + r) 1 Nat.one_pos hnum
  have hm2 := roundMag_le (d / 1000000000 * F64.one + r) 1 Nat.one_pos
  have hsum : d / 1000000000 * F64.one + r ≤ 2 ^ 35 * F64.one := by
    have : d / 1000000000 * F64.one ≤ 2 ^ 34 * F64.one := Nat.mul_le_mul_right _ (le_of_lt ha)
    have h35 : (2:Nat) ^ 35 * F64.one = 2 ^ 34 * F64.one + 2 ^ 34 * F64.one := by ring
    have h2 : 2 * F64.one ≤ 2 ^ 34 * F64.one := Nat.mul_le_mul_right _ (by decide)
    omega
  have hbig : 2 ^ 54 * (2 ^ 37 * F64.one) < 2 ^ 2098 := by rw [F64.one_eq]; decide
  have hm3 : roundMag (d / 1000000000 * F64.one + r) 1 ≤ 2 ^ 37 * F64.one := by
    have h37 : (2:Nat) ^ 37 * F64.one = 4 * (2 ^ 35 * F64.one) := by ring
    omega
  have hm4 : roundMag (d / 1000000000 * F64.one + r) 1 < 1 <<< 2098 := by
    rw [two_pow_2098]; omega
  refine ⟨roundMag (d / 1000000000 * F64.one + r) 1, ?_, hm1, ?_⟩
  · unfold Seconds
    simp only [hsec, hns, hA, hB, hG, hdiv, F64.add, if_true, F64.ofMag, hm4]
  · have := Nat.mul_le_mul_left (2 ^ 54) hm3
    omega


/-- An addition whose exact result is a float64 value does not round. -/
theorem add_representable (x y : Nat) (h : F64.representable (x + y)) :
    F64.add (.fin false x) (.fin false y) = .fin false (x + y) := by
  obtain ⟨hlt, a, j, ha, he⟩ := h
  have hr : roundMag (x + y) 1 = x + y := by rw [he]; exact roundMag_exact a j ha
  simp only [F64.add, if_true, F64.ofMag, hr, hlt]

/-- While every multiple of `m` met on the way is a float64 value, repeated
addition of `m` gives the multiples of `m`. -/
theorem accumulate_multiples (m : Nat) : ∀ (k a : Nat),
    (∀ i, 1 ≤ i → i ≤ k → F64.representable ((a + i) * m)) →
    accumulate (.fin false m) k (.fin false (a * m)) = .fin false ((a + k) * m) := by
  intro k
  induction k with
  | zero => intro a _; simp [accumulate]
  | succ k ih =>
    intro a h
    have h1 : F64.representable (a * m + m) := by
      have := h 1 (le_refl 1) (Nat.succ_le_succ (Nat.zero_le k))
      have e : (a + 1) * m = a * m + m := by ring
      rwa [e] at this
    have e1 : a * m + m = (a + 1) * m := by ring
    simp only [accumulate]
    rw [add_representable _ _ h1, e1, ih (a + 1)]
    · congr 2; ring
    · intro i hi1 hik
      have := h (i + 1) (by omega) (by omega)
      have e : a + (i + 1) = a + 1 + i := by ring
      rwa [e] at this

/-- Why the number of ticks is bounded where the series is said to increase:
at `gt` = 2^53 seconds the addition of one second returns `gt`. -/
theorem add_stalls_at_two_pow_53 :
    F64.add (.fin false (2 ^ 53 * F64.one)) (Seconds Second)
      = .fin false (2 ^ 53 * F64.one) := by
  decide

/-- The embedding on known binary64 values: 100ms is `0x3FB999999999999A`
seconds (0.1), 0.1 + 0.1 is `0x3FC999999999999A` (0.2), and 0.2 + 0.1 is
`0x3FD3333333333334` (0.30000000000000004), one step above the binary64 value
`0x3FD3333333333333` of 3/10. -/
theorem float64_known_values :
    Seconds 100000000 = .fin false (0x1999999999999A <<< 1018) ∧
    F64.add (Seconds 100000000) (Seconds 100000000)
      = .fin false (0x1999999999999A <<< 1019) ∧
    F64.add (F64.add (Seconds 100000000) (Seconds 100000000)) (Seconds 100000000)
      = .fin false (0x13333333333334 <<< 1020) ∧
    F64.div (F64.ofNat 3) (F64.ofNat 10) = .fin false (0x13333333333333 <<< 1020) ∧
    Seconds 1500000000 = .fin false (3 <<< 1073) ∧
    Seconds (-1500000000) = .fin true (3 <<< 1073) := by
  refine ⟨by decide, by decide, by decide, by decide, by decide, by decide⟩

/-! ## The loop on a run of successful ticks -/

theorem loopBody_okTick (d : Int) (s : LoopState) (t : F64 × Nat) :
    loopBody d s (okTick t) = .next (sample d s t) := by
  simp only [loopBody, okTick, okQueries, sample]
  split <;> rfl

theorem mainLoop_okTicks (d : Int) (rest : List Wake) :
    ∀ (ticks : List (F64 × Nat)) (s : LoopState),
      mainLoop d s (ticks.map okTick ++ rest) = mainLoop d (ticks.foldl (sample d) s) rest := by
  intro ticks
  induction ticks with
  | nil => intro s; rfl
  | cons t ts ih =>
    intro s
    simp only [List.map_cons, List.cons_append, List.foldl_cons, mainLoop, loopBody_okTick]
    exact ih (sample d s t)

theorem mainLoop_sampleRun (d : Int) (ticks : List (F64 × Nat)) (s : LoopState) :
    mainLoop d s (sampleRun ticks) = .exited (ticks.foldl (sample d) s) := by
  unfold sampleRun
  rw [mainLoop_okTicks]
  rfl

theorem foldl_sample_cpu (d : Int) : ∀ (ticks : List (F64 × Nat)) (s : LoopState),
    (ticks.foldl (sample d) s).cpuSeries = s.cpuSeries ++ ticks.map Prod.fst := by
  intro ticks
  induction ticks with
  | nil => intro s; simp
  | cons t ts ih => intro s; simp [ih, sample]

theorem foldl_sample_mem (d : Int) : ∀ (ticks : List (F64 × Nat)) (s : LoopState),
    (ticks.foldl (sample d) s).memSeries
      = s.memSeries ++ ticks.map (fun t => F64.ofNat t.2) := by
  intro ticks
  induction ticks with
  | nil => intro s; simp
  | cons t ts ih => intro s; simp [ih, sample]

theorem foldl_sample_time (d : Int) : ∀ (ticks : List (F64 × Nat)) (s : LoopState),
    (ticks.foldl (sample d) s).timeSeries
      = s.timeSeries
        ++ (List.range ticks.length).map (fun k => accumulate (Seconds d) (k + 1) s.gt) := by
  intro ticks
  induction ticks with
  | nil => intro s; simp
  | cons t ts ih =>
    intro s
    rw [List.foldl_cons, ih, List.length_cons, List.range_succ_eq_map]
    simp [sample, accumulate, List.map_map, Function.comp_def]

/-- C1. For every run of N successful ticks followed by the stop event the loop
exits, and on exit `cpuSeries`, `memSeries` and `timeSeries` all have length N;
`cpuSeries` holds the CPU values of the ticks in tick order and `memSeries` the
`float64(mem.RSS)` of the ticks in tick order. -/
theorem series_aligned (interval : Int) (ticks : List (F64 × Nat)) :
    ∃ s, mainLoop interval LoopState.init (sampleRun ticks) = .exited s ∧
      s.cpuSeries.length = ticks.length ∧
      s.memSeries.length = ticks.length ∧
      s.timeSeries.length = ticks.length ∧
      s.cpuSeries = ticks.map Prod.fst ∧
      s.memSeries = ticks.map (fun t => F64.ofNat t.2) := by
  refine ⟨_, mainLoop_sampleRun interval ticks LoopState.init, ?_, ?_, ?_, ?_, ?_⟩
  · simp [foldl_sample_cpu, LoopState.init]
  · simp [foldl_sample_mem, LoopState.init]
  · simp [foldl_sample_time, LoopState.init]
  · simp [foldl_sample_cpu, LoopState.init]
  · simp [foldl_sample_mem, LoopState.init]

theorem lt_of_mag_lt (a b : Nat) (h : a < b) :
    F64.lt (.fin false a) (.fin false b) = true := by
  simp [F64.lt, F64.signed, h]

/-- C2, as amended. For every interval and every run of N successful ticks the
loop exits with a time series whose k-th entry (from 1) is what k float64
additions of `interval.Seconds()` to `0.0` give: it is fixed by the interval and
N alone, whatever the CPU and memory values. For a positive `int64` interval and
N ≤ 2^52 the series is strictly increasing. When every multiple `k * m`, k ≤ N,
of the value `m` of `interval.Seconds()` is itself a float64 value, no addition
rounds and the k-th entry is exactly `k * m`, with constant step `m`; so it is
when the interval is a whole number n of seconds and N * n ≤ 2^53, where the
series is n, 2n, ..., N*n seconds. -/
theorem timeSeries_accumulated (interval : Int) (ticks : List (F64 × Nat)) :
    ∃ s, mainLoop interval LoopState.init (sampleRun ticks) = .exited s ∧
      s.timeSeries = (List.range ticks.length).map
        (fun k => accumulate (Seconds interval) (k + 1) F64.zero) ∧
      (0 < interval → interval < 2 ^ 63 → ticks.length ≤ 2 ^ 52 →
        List.Pairwise (fun a b => F64.lt a b = true) s.timeSeries) ∧
      (∀ m : Nat, Seconds interval = .fin false m →
        (∀ k, 1 ≤ k → k ≤ ticks.length → F64.representable (k * m)) →
        s.timeSeries = (List.range ticks.length).map (fun k => F64.fin false ((k + 1) * m))) ∧
      (∀ n : Nat, interval = (n : Int) * Second → ticks.length * n ≤ 2 ^ 53 →
        s.timeSeries = (List.range ticks.length).map
          (fun k => F64.fin false ((k + 1) * n * F64.one)) ∧
        (0 < n → List.Pairwise (fun a b => F64.lt a b = true) s.timeSeries)) := by
  have hacc : (ticks.foldl (sample interval) LoopState.init).timeSeries
      = (List.range ticks.length).map
          (fun k => accumulate (Seconds interval) (k + 1) F64.zero) := by
    simp [foldl_sample_time, LoopState.init]
  refine ⟨_, mainLoop_sampleRun interval ticks LoopState.init, hacc, ?_, ?_, ?_⟩
  · intro hpos hmax hN
    obtain ⟨m, hm, hm0, hmb⟩ := Seconds_pos interval hpos hmax
    have hbud : 0 + 2 * ticks.length * m ≤ 2 ^ 53 * m := by
      have : 2 * ticks.length ≤ 2 ^ 53 := by omega
      simpa using Nat.mul_le_mul_right m this
    obtain ⟨ys, h1, h2, _⟩ := accumulate_increasing m hm0 hmb ticks.length 0 hbud
    rw [hacc, hm]
    have hz : F64.zero = .fin false 0 := rfl
    rw [hz, h1, List.pairwise_map]
    exact h2.imp (fun hab => lt_of_mag_lt _ _ hab)
  · intro m hm hrep
    rw [hacc, hm]
    apply List.map_congr_left
    intro k hk
    have hk1 : k + 1 ≤ ticks.length := List.mem_range.mp hk
    have hz : F64.zero = .fin false (0 * m) := by simp [F64.zero]
    rw [hz, accumulate_multiples m (k + 1) 0]
    · simp
    · intro i hi1 hik
      simpa using hrep i hi1 (le_trans hik hk1)
  · intro n hn hb
    have hexact : (ticks.foldl (sample interval) LoopState.init).timeSeries
        = (List.range ticks.length).map (fun k => F64.fin false ((k + 1) * n * F64.one)) := by
      rw [hacc]
      apply List.map_congr_left
      intro k hk
      have hk1 : k + 1 ≤ ticks.length := List.mem_range.mp hk
      have hkn : (k + 1) * n ≤ 2 ^ 53 := le_trans (Nat.mul_le_mul_right n hk1) hb
      have hn1 : n ≤ 2 ^ 53 := le_trans (Nat.le_mul_of_pos_left n (Nat.succ_pos k)) hkn
      have hz : F64.zero = .fin false (0 * F64.one) := by simp [F64.zero]
      rw [hn, Seconds_whole n hn1, hz, accumulate_exact n (k + 1) 0 (by simpa using hkn)]
      simp
    refine ⟨hexact, ?_⟩
    intro hpos
    rw [hexact, List.pairwise_map]
    refine (List.pairwise_lt_range ticks.length).imp ?_
    intro a b hab
    apply lt_of_mag_lt
    have hone : 0 < F64.one := by rw [F64.one_eq]; exact Nat.pos_pow_of_pos _ (by decide)
    exact Nat.mul_lt_mul_of_pos_right (Nat.mul_lt_mul_of_pos_right (by omega) hpos) hone

/-- C2, witness: an interval of 1s over 5 ticks gives the time series
1, 2, 3, 4, 5; an interval of 500ms over 4 ticks gives 0.5, 1, 1.5, 2; and the
series of an interval of 100ms over 10 ticks is strictly increasing. -/
theorem timeSeries_accumulated_witness :
    (∃ s, mainLoop Second LoopState.init
        (sampleRun [(F64.ofNat 10, 100), (F64.ofNat 20, 300), (F64.ofNat 30, 200),
          (F64.ofNat 40, 50), (F64.ofNat 50, 60)]) = .exited s ∧
      s.timeSeries = [F64.ofNat 1, F64.ofNat 2, F64.ofNat 3, F64.ofNat 4, F64.ofNat 5]) ∧
    (∃ s, mainLoop 500000000 LoopState.init
        (sampleRun [(F64.ofNat 10, 100), (F64.ofNat 20, 300), (F64.ofNat 30, 200),
          (F64.ofNat 40, 50)]) = .exited s ∧
      s.timeSeries = [.fin false (1 <<< 1073), F64.ofNat 1, .fin false (3 <<< 1073),
        F64.ofNat 2]) ∧
    (∃ s, mainLoop 100000000 LoopState.init
        (sampleRun (List.replicate 10 (F64.zero, 0))) = .exited s ∧
      List.Pairwise (fun a b => F64.lt a b = true) s.timeSeries) := by
  refine ⟨?_, ?_, ?_⟩
  · obtain ⟨s, hs, _, _, _, hex⟩ := timeSeries_accumulated Second
      [(F64.ofNat 10, 100), (F64.ofNat 20, 300), (F64.ofNat 30, 200),
        (F64.ofNat 40, 50), (F64.ofNat 50, 60)]
    refine ⟨s, hs, ?_⟩
    rw [(hex 1 (by simp) (by decide)).1]
    decide
  · obtain ⟨s, hs, _, _, hrep, _⟩ := timeSeries_accumulated 500000000
      [(F64.ofNat 10, 100), (F64.ofNat 20, 300), (F64.ofNat 30, 200), (F64.ofNat 40, 50)]
    refine ⟨s, hs, ?_⟩
    rw [hrep (1 <<< 1073) (by decide) ?_]
    · decide
    · intro k _ hk
      have hk4 : k ≤ 4 := hk
      refine ⟨?_, k, 1073, by omega, by rw [Nat.one_shiftLeft]⟩
      calc k * 1 <<< 1073 ≤ 4 * 1 <<< 1073 := Nat.mul_le_mul_right _ hk4
        _ < 1 <<< 2098 := by decide
  · obtain ⟨s, hs, _, hinc, _, _⟩ := timeSeries_accumulated 100000000
      (List.replicate 10 (F64.zero, 0))
    exact ⟨s, hs, hinc (by decide) (by decide) (by decide)⟩

/-- C2, counterexample. With an interval of 100ms, ten successful ticks leave a
time series that is not 0.1, 0.2, ..., 1.0: its last entry is 1 - 2^-53
(0.9999999999999999), where ten times the interval is 1 second. -/
theorem timeSeries_not_multiples :
    ∃ s, mainLoop 100000000 LoopState.init
        (sampleRun (List.replicate 10 (F64.zero, 0))) = .exited s ∧
      s.timeSeries ≠ claimedTimeSeries 100000000 10 ∧
      s.timeSeries.getLast? = some (.fin false (F64.one - (1 <<< 1021))) ∧
      (claimedTimeSeries 100000000 10).getLast? = some (.fin false F64.one) := by
  refine ⟨_, mainLoop_sampleRun _ _ _, ?_, ?_, ?_⟩
  · decide
  · decide
  · decide

/-! ## The running maximum -/

theorem ofNat_isNonneg (n : Nat) : (F64.ofNat n).isNonneg = true := by
  unfold F64.ofNat F64.ofMag
  simp only
  split <;> rfl

theorem lt_self_false (x : F64) : F64.lt x x = false := by
  cases x <;> simp [F64.lt]

theorem lt_of_lt_of_not_lt {a b c : F64} (ha : a.isNonneg = true) (hb : b.isNonneg = true)
    (hc : c.isNonneg = true) (h1 : F64.lt a b = true) (h2 : F64.lt a c = false) :
    F64.lt b c = false := by
  rcases a with ⟨_ | _, x⟩ | ⟨_ | _⟩ | _ <;> rcases b with ⟨_ | _, y⟩ | ⟨_ | _⟩ | _ <;>
    rcases c with ⟨_ | _, z⟩ | ⟨_ | _⟩ | _ <;>
    simp_all [F64.isNonneg, F64.lt, F64.signed]
  omega

theorem eq_zero_of_not_pos {v : F64} (hv : v.isNonneg = true)
    (h : F64.lt F64.zero v = false) : v = F64.zero := by
  rcases v with ⟨_ | _, x⟩ | ⟨_ | _⟩ | _ <;>
    simp_all [F64.isNonneg, F64.lt, F64.signed, F64.zero]

theorem MaxInv_init : MaxInv LoopState.init := by
  simp [MaxInv, LoopState.init, F64.zero, F64.isNonneg]

theorem MaxInv_sample (d : Int) (s : LoopState) (t : F64 × Nat) (h : MaxInv s) :
    MaxInv (sample d s t) := by
  obtain ⟨hn, hall, hnil, hmem⟩ := h
  have hv := ofNat_isNonneg t.2
  by_cases hlt : F64.lt s.maxMem (F64.ofNat t.2) = true
  · refine ⟨by simp [sample, hlt, hv], ?_, by simp [sample], ?_⟩
    · intro x hx
      simp only [sample, hlt, if_true, List.mem_append, List.mem_singleton] at hx ⊢
      rcases hx with hx | hx
      · exact ⟨(hall x hx).1, lt_of_lt_of_not_lt hn hv (hall x hx).1 hlt (hall x hx).2⟩
      · subst hx; exact ⟨hv, lt_self_false _⟩
    · intro _; simp [sample, hlt]
  · have hf : F64.lt s.maxMem (F64.ofNat t.2) = false := by simpa using hlt
    refine ⟨by simp [sample, hf, hn], ?_, by simp [sample], ?_⟩
    · intro x hx
      simp only [sample, hf, List.mem_append, List.mem_singleton] at hx ⊢
      rcases hx with hx | hx
      · simpa using hall x hx
      · subst hx; simpa using And.intro hv hf
    · intro _
      simp only [sample, hf, List.mem_append, List.mem_singleton]
      by_cases he : s.memSeries = []
      · right
        have hz := hnil he
        rw [hz] at hf ⊢
        simpa using (eq_zero_of_not_pos hv hf).symm
      · left; simpa using hmem he

theorem MaxInv_foldl (d : Int) : ∀ (ticks : List (F64 × Nat)) (s : LoopState),
    MaxInv s → MaxInv (ticks.foldl (sample d) s) := by
  intro ticks
  induction ticks with
  | nil => intro s h; exact h
  | cons t ts ih => intro s h; exact ih _ (MaxInv_sample d s t h)

/-- C3. For every run of N successful ticks the loop exits with `maxMem` equal
to the maximum of `memSeries`: it is `0.0` when N = 0, otherwise it is an entry
of `memSeries` and no entry is greater; and the secondary axis of the chart
gets the range from `0` to `maxMem`. -/
theorem maxMem_is_maximum (interval : Int) (ticks : List (F64 × Nat)) :
    ∃ s, mainLoop interval LoopState.init (sampleRun ticks) = .exited s ∧
      (ticks = [] → s.maxMem = F64.zero) ∧
      (ticks ≠ [] → s.maxMem ∈ s.memSeries) ∧
      (∀ x ∈ s.memSeries, F64.lt s.maxMem x = false) ∧
      (graph s).YAxisSecondaryRange = { Min := F64.zero, Max := s.maxMem } := by
  have hinv := MaxInv_foldl interval ticks LoopState.init MaxInv_init
  have hmem := foldl_sample_mem interval ticks LoopState.init
  obtain ⟨_, hall, hnil, hin⟩ := hinv
  refine ⟨_, mainLoop_sampleRun interval ticks LoopState.init, ?_, ?_, ?_, rfl⟩
  · intro h
    apply hnil
    rw [hmem, h]
    rfl
  · intro h
    apply hin
    rw [hmem]
    simpa [LoopState.init] using h
  · intro x hx
    exact (hall x hx).2

/-- C3, witness: the memory samples 100, 300, 200 give `maxMem` = 300, the
upper bound of the secondary axis. -/
theorem maxMem_is_maximum_witness :
    ∃ s, mainLoop Second LoopState.init
        (sampleRun [(F64.ofNat 1, 100), (F64.ofNat 2, 300), (F64.ofNat 3, 200)]) = .exited s ∧
      s.memSeries = [F64.ofNat 100, F64.ofNat 300, F64.ofNat 200] ∧
      s.maxMem = F64.ofNat 300 ∧
      (graph s).YAxisSecondaryRange = { Min := F64.zero, Max := F64.ofNat 300 } := by
  obtain ⟨s, hs, _, _, _, hr⟩ := maxMem_is_maximum Second
    [(F64.ofNat 1, 100), (F64.ofNat 2, 300), (F64.ofNat 3, 200)]
  rw [mainLoop_sampleRun] at hs
  injection hs with hs
  subst hs
  exact ⟨_, mainLoop_sampleRun _ _ _, by decide, by decide, by decide⟩

/-! ## Failing queries -/

theorem loopBody_tick_fails (d : Int) (s : LoopState) (q : Queries)
    (h : q.succeeds = false) : ∃ e s1, loopBody d s (.tick q) = .fatal e s1 := by
  obtain ⟨cpu, mem⟩ := q
  cases cpu with
  | error e => exact ⟨e, s, rfl⟩
  | ok c =>
    cases mem with
    | error e => exact ⟨e, _, rfl⟩
    | ok m => simp [Queries.succeeds] at h

theorem loopBody_tick_succeeds (d : Int) (s : LoopState) (q : Queries)
    (h : q.succeeds = true) : ∃ s1, loopBody d s (.tick q) = .next s1 := by
  obtain ⟨cpu, mem⟩ := q
  cases cpu with
  | error e => simp [Queries.succeeds] at h
  | ok c =>
    cases mem with
    | error e => simp [Queries.succeeds] at h
    | ok m => exact ⟨_, rfl⟩

theorem mainLoop_fails (d : Int) (rest : List Wake) : ∀ (qs : List Queries) (s : LoopState),
    (∃ q ∈ qs, q.succeeds = false) →
      ∃ e s1, mainLoop d s (qs.map Wake.tick ++ rest) = .fatal e s1 := by
  intro qs
  induction qs with
  | nil => intro s h; simp at h
  | cons q qs ih =>
    intro s h
    by_cases hq : q.succeeds = true
    · obtain ⟨s1, h1⟩ := loopBody_tick_succeeds d s q hq
      have hrest : ∃ q1 ∈ qs, q1.succeeds = false := by
        obtain ⟨q1, hmem, hf⟩ := h
        rcases List.mem_cons.mp hmem with rfl | hm
        · rw [hq] at hf; cases hf
        · exact ⟨q1, hm, hf⟩
      simp only [List.map_cons, List.cons_append, mainLoop, h1]
      exact ih s1 hrest
    · have hf : q.succeeds = false := by simpa using hq
      obtain ⟨e, s1, h1⟩ := loopBody_tick_fails d s q hf
      exact ⟨e, s1, by simp only [List.map_cons, List.cons_append, mainLoop, h1]⟩

theorem mainLoop_succeeds (d : Int) (rest : List Wake) :
    ∀ (qs : List Queries) (s : LoopState), (∀ q ∈ qs, q.succeeds = true) →
      ∃ s1, mainLoop d s (qs.map Wake.tick ++ Wake.stop :: rest) = .exited s1 := by
  intro qs
  induction qs with
  | nil => intro s _; exact ⟨s, rfl⟩
  | cons q qs ih =>
    intro s h
    obtain ⟨s1, h1⟩ := loopBody_tick_succeeds d s q (h q (List.mem_cons_self _ _))
    obtain ⟨s2, h2⟩ := ih s1 (fun q1 hq1 => h q1 (List.mem_cons_of_mem _ hq1))
    refine ⟨s2, ?_⟩
    simp only [List.map_cons, List.cons_append, mainLoop, h1]
    exact h2

/-- C4. In a run that reaches the loop (interval > 0) and wakes it with the ticks
`qs` and then the stop signal: when the CPU query or the memory query of some
tick returns an error, `main` ends in `log.Fatal`, whatever the other ticks
returned and whatever opening the file or rendering would have returned, so no
chart is built and no file opened; `main` ends with a rendered chart only if
both queries of every tick succeeded; and when they all succeed (and the process
exists, the file opens and the rendering succeeds) it does end with the chart of
the state the loop left. -/
theorem query_error_is_fatal (cfg : Config) (env : Env) (qs : List Queries)
    (rest : List Wake) (hpos : 0 < cfg.interval)
    (hw : env.wakes = qs.map Wake.tick ++ Wake.stop :: rest) :
    ((∃ q ∈ qs, q.succeeds = false) → ∃ e, main cfg env = .fatal e) ∧
    ((∃ g, main cfg env = .done g) → ∀ q ∈ qs, q.succeeds = true) ∧
    ((∀ q ∈ qs, q.succeeds = true) → env.newProcess = .ok () → env.openFile = .ok () →
      env.render = .ok () →
      ∃ s, mainLoop cfg.interval LoopState.init env.wakes = .exited s ∧
        main cfg env = .done (graph s)) := by
  have hni : ¬ cfg.interval ≤ 0 := not_le.mpr hpos
  have hfail : (∃ q ∈ qs, q.succeeds = false) → ∃ e, main cfg env = .fatal e := by
    intro h
    obtain ⟨e, s1, hl⟩ := mainLoop_fails cfg.interval (Wake.stop :: rest) qs LoopState.init h
    unfold main
    cases hp : env.newProcess with
    | error e0 => exact ⟨e0, rfl⟩
    | ok u =>
      simp only [hni, if_false, hw, hl]
      exact ⟨e, rfl⟩
  refine ⟨hfail, ?_, ?_⟩
  · rintro ⟨g, hg⟩ q hq
    by_contra hc
    have hf : q.succeeds = false := by simpa using hc
    obtain ⟨e, he⟩ := hfail ⟨q, hq, hf⟩
    rw [he] at hg
    cases hg
  · intro hall hp ho hr
    obtain ⟨s, hs⟩ := mainLoop_succeeds cfg.interval rest qs LoopState.init hall
    rw [← hw] at hs
    refine ⟨s, hs, ?_⟩
    unfold main
    simp only [hp, hni, if_false, hs, ho, hr]

/-- C4, witness: in a run of five ticks at an interval of 1s whose second tick
fails in the memory query, `main` ends in `log.Fatal`. -/
theorem query_error_is_fatal_witness :
    ∃ e, main { pid := 1, interval := 1000000000, duration := 0, out := "graph.png" }
      { newProcess := .ok (),
        wakes := [ .tick { cpu := .ok (F64.ofNat 1), mem := .ok { RSS := 100 } },
                   .tick { cpu := .ok (F64.ofNat 2), mem := .error "context deadline exceeded" },
                   .tick { cpu := .ok (F64.ofNat 3), mem := .ok { RSS := 300 } },
                   .tick { cpu := .ok (F64.ofNat 4), mem := .ok { RSS := 400 } },
                   .tick { cpu := .ok (F64.ofNat 5), mem := .ok { RSS := 500 } },
                   .stop ],
        openFile := .ok (), render := .ok () } = .fatal e :=
  (query_error_is_fatal
    { pid := 1, interval := 1000000000, duration := 0, out := "graph.png" }
    { newProcess := .ok (),
      wakes := [ .tick { cpu := .ok (F64.ofNat 1), mem := .ok { RSS := 100 } },
                 .tick { cpu := .ok (F64.ofNat 2), mem := .error "context deadline exceeded" },
                 .tick { cpu := .ok (F64.ofNat 3), mem := .ok { RSS := 300 } },
                 .tick { cpu := .ok (F64.ofNat 4), mem := .ok { RSS := 400 } },
                 .tick { cpu := .ok (F64.ofNat 5), mem := .ok { RSS := 500 } },
                 .stop ],
      openFile := .ok (), render := .ok () }
    [ { cpu := .ok (F64.ofNat 1), mem := .ok { RSS := 100 } },
      { cpu := .ok (F64.ofNat 2), mem := .error "context deadline exceeded" },
      { cpu := .ok (F64.ofNat 3), mem := .ok { RSS := 300 } },
      { cpu := .ok (F64.ofNat 4), mem := .ok { RSS := 400 } },
      { cpu := .ok (F64.ofNat 5), mem := .ok { RSS := 500 } } ]
    [] (by decide) rfl).1
    ⟨{ cpu := .ok (F64.ofNat 2), mem := .error "context deadline exceeded" },
      List.mem_cons_of_mem _ (List.mem_cons_self _ _), rfl⟩

/-- C10, counterexample. A tick whose CPU query succeeds and whose memory query
fails reaches `log.Fatal` with `cpuSeries` one entry longer than `memSeries` and
`timeSeries`. -/
theorem mem_failure_after_cpu_append :
    ∃ e s, loopBody Second LoopState.init
        (.tick { cpu := .ok (F64.ofNat 5), mem := .error "context deadline exceeded" })
        = .fatal e s ∧
      s.cpuSeries.length = 1 ∧ s.memSeries.length = 0 ∧ s.timeSeries.length = 0 :=
  ⟨_, _, rfl, rfl, rfl, rfl⟩

/-- C10, as amended. A tick whose CPU query fails reaches `log.Fatal` with the
three series as they were before the tick. A tick whose CPU query succeeds and
whose memory query fails reaches `log.Fatal` after `cpuSeries` has received the
CPU value: `memSeries`, `timeSeries`, `maxMem` and `gt` are as before the tick.
In both cases the loop ends at that call, whatever wake-ups would follow. -/
theorem failing_tick_state (interval : Int) (s : LoopState) :
    (∀ (e : Err) (mem : Except Err MemoryInfoStat),
      loopBody interval s (.tick { cpu := .error e, mem := mem }) = .fatal e s) ∧
    (∀ (cpu : F64) (e : Err),
      loopBody interval s (.tick { cpu := .ok cpu, mem := .error e })
        = .fatal e { s with cpuSeries := s.cpuSeries ++ [cpu] }) ∧
    (∀ (e : Err) (s1 : LoopState) (w : Wake) (ws : List Wake),
      loopBody interval s w = .fatal e s1 → mainLoop interval s (w :: ws) = .fatal e s1) :=
  ⟨fun _ _ => rfl, fun _ _ => rfl, fun e s1 w ws h => by simp only [mainLoop, h]⟩

/-! ## The running program -/

theorem run_cons (sys : Sys) (ev : Event) (evs : List Event) :
    sys.run (ev :: evs) = (sys.step ev).run evs := rfl

theorem run_append (sys : Sys) (xs ys : List Event) :
    sys.run (xs ++ ys) = (sys.run xs).run ys := by
  simp [Sys.run, List.foldl_append]

theorem step_gone (sys : Sys) (ev : Event) (h : sys.phase.gone = true) : sys.step ev = sys := by
  simp [Sys.step, h]

theorem run_gone (evs : List Event) : ∀ sys : Sys, sys.phase.gone = true → sys.run evs = sys := by
  induction evs with
  | nil => intro sys _; rfl
  | cons ev evs ih =>
    intro sys h
    rw [run_cons, step_gone sys ev h]
    exact ih sys h

theorem iterate_okTick (sys : Sys) (s : LoopState) (c : Bool) (t : F64 × Nat)
    (hp : sys.phase = .sampling s) (ht : sys.tickReady = true) (hs : sys.stopClosed = false) :
    sys.iterate c (okQueries t)
      = { sys with tickReady := false, phase := .sampling (sample sys.interval s t) } := by
  have hb := loopBody_okTick sys.interval s t
  simp only [okTick] at hb
  simp only [Sys.iterate, hp, ht, hs, selectWake, hb]

theorem run_tickTrace (c : Bool) : ∀ (ticks : List (F64 × Nat)) (sys : Sys) (s : LoopState),
    sys.phase = .sampling s → sys.stopClosed = false →
      (sys.run (tickTrace c ticks)).phase = .sampling (ticks.foldl (sample sys.interval) s) ∧
      (sys.run (tickTrace c ticks)).stopClosed = false ∧
      (sys.run (tickTrace c ticks)).interval = sys.interval := by
  intro ticks
  induction ticks with
  | nil => intro sys s hp hs; exact ⟨hp, hs, rfl⟩
  | cons t ts ih =>
    intro sys s hp hs
    have hg : sys.phase.gone = false := by rw [hp]; rfl
    have h1 : sys.step .tickerFire = { sys with tickReady := true } := by
      simp [Sys.step, hg]
    have h2 : ({ sys with tickReady := true } : Sys).step (.iterate c (okQueries t))
        = { sys with tickReady := false, phase := .sampling (sample sys.interval s t) } := by
      have := iterate_okTick { sys with tickReady := true } s c t hp rfl hs
      simp only [Sys.step, hg, this]
      rfl
    simp only [tickTrace, run_cons, h1, h2]
    exact ih _ (sample sys.interval s t) rfl hs

theorem step_quiet (sys : Sys) (ev : Event) (hq : ev.quiet = true)
    (h : (∃ s, sys.phase = .sampling s) ∧ sys.stopClosed = false ∧ sys.timerArmed = false) :
    (∃ s, (sys.step ev).phase = .sampling s) ∧ (sys.step ev).stopClosed = false ∧
      (sys.step ev).timerArmed = false := by
  obtain ⟨⟨s, hp⟩, hs, ht⟩ := h
  have hg : sys.phase.gone = false := by rw [hp]; rfl
  cases ev with
  | timerFire => simp [Sys.step, Phase.gone, ht, hp, hs]
  | interrupt => simp [Event.quiet] at hq
  | tickerFire => simp [Sys.step, Phase.gone, ht, hp, hs]
  | finish o r => simp [Sys.step, Phase.gone, ht, hp, hs]
  | iterate c q =>
    have hq1 : q.succeeds = true := hq
    obtain ⟨s1, h1⟩ := loopBody_tick_succeeds sys.interval s q hq1
    cases htr : sys.tickReady with
    | false => simp [Sys.step, Sys.iterate, Phase.gone, ht, hp, hs, htr, selectWake]
    | true => simp [Sys.step, Sys.iterate, Phase.gone, ht, hp, hs, htr, selectWake, h1]

theorem run_quiet (trace : List Event) : ∀ sys : Sys, (∀ ev ∈ trace, ev.quiet = true) →
    ((∃ s, sys.phase = .sampling s) ∧ sys.stopClosed = false ∧ sys.timerArmed = false) →
    (∃ s, (sys.run trace).phase = .sampling s) ∧ (sys.run trace).stopClosed = false ∧
      (sys.run trace).timerArmed = false := by
  induction trace with
  | nil => intro sys _ h; exact h
  | cons ev evs ih =>
    intro sys hq h
    rw [run_cons]
    exact ih _ (fun e he => hq e (List.mem_cons_of_mem _ he))
      (step_quiet sys ev (hq ev (List.mem_cons_self _ _)) h)

/-- C5. In a program that reaches the loop (interval > 0): when the duration is
positive the timer is armed and its firing closes `stop`; when the duration is 0
no timer is armed, after every sequence of events without an interrupt and
without a failing query the main goroutine is still in the loop and `stop` is
still open, and after N ticker events each taken by the loop exactly N samples
are recorded in each series. -/
theorem no_timer_without_duration (cfg : Config) (hi : 0 < cfg.interval) :
    (0 < cfg.duration →
      (start cfg (.ok ())).timerArmed = true ∧
      ((start cfg (.ok ())).step .timerFire).stopClosed = true) ∧
    (cfg.duration = 0 →
      (start cfg (.ok ())).timerArmed = false ∧
      (∀ trace : List Event, (∀ ev ∈ trace, ev.quiet = true) →
        (∃ s, ((start cfg (.ok ())).run trace).phase = .sampling s) ∧
        ((start cfg (.ok ())).run trace).stopClosed = false) ∧
      (∀ (preferTick : Bool) (ticks : List (F64 × Nat)),
        ∃ s, ((start cfg (.ok ())).run (tickTrace preferTick ticks)).phase = .sampling s ∧
          s.cpuSeries.length = ticks.length ∧ s.memSeries.length = ticks.length ∧
          s.timeSeries.length = ticks.length)) := by
  have hni : ¬ cfg.interval ≤ 0 := not_le.mpr hi
  have hp : (start cfg (.ok ())).phase = .sampling LoopState.init := by
    simp [start, hni]
  have hs : (start cfg (.ok ())).stopClosed = false := rfl
  constructor
  · intro hd
    have ha : (start cfg (.ok ())).timerArmed = true := by simp [start, hd]
    refine ⟨ha, ?_⟩
    have hg : (start cfg (.ok ())).phase.gone = false := by rw [hp]; rfl
    simp [Sys.step, hg, ha, closeStop, hs]
  · intro hd
    have ha : (start cfg (.ok ())).timerArmed = false := by simp [start, hd]
    refine ⟨ha, ?_, ?_⟩
    · intro trace hq
      obtain ⟨h1, h2, _⟩ := run_quiet trace (start cfg (.ok ())) hq ⟨⟨_, hp⟩, hs, ha⟩
      exact ⟨h1, h2⟩
    · intro c ticks
      obtain ⟨h1, _, _⟩ := run_tickTrace c ticks (start cfg (.ok ())) LoopState.init hp hs
      refine ⟨_, h1, ?_, ?_, ?_⟩
      · simp [foldl_sample_cpu, LoopState.init]
      · simp [foldl_sample_mem, LoopState.init]
      · simp [foldl_sample_time, LoopState.init]

/-- C5, witness: with `-interval 1s -duration 0`, after three ticks and a
further tick that is still pending the program is in the loop with `stop` open,
and after three ticks it has recorded three samples. -/
theorem no_timer_without_duration_witness :
    (start { pid := 1, interval := 1000000000, duration := 0, out := "graph.png" }
        (.ok ())).timerArmed = false ∧
    (∃ s, ((start { pid := 1, interval := 1000000000, duration := 0, out := "graph.png" }
        (.ok ())).run (tickTrace true [(F64.ofNat 1, 100), (F64.ofNat 2, 300),
          (F64.ofNat 3, 200)])).phase = .sampling s ∧
      s.cpuSeries.length = 3 ∧ s.memSeries.length = 3 ∧ s.timeSeries.length = 3) := by
  have h := (no_timer_without_duration
    { pid := 1, interval := 1000000000, duration := 0, out := "graph.png" } (by decide)).2 rfl
  exact ⟨h.1, h.2.2 true [(F64.ofNat 1, 100), (F64.ofNat 2, 300), (F64.ofNat 3, 200)]⟩

theorem loopBody_stop (d : Int) (s : LoopState) : loopBody d s .stop = .brk s := rfl

theorem step_tick (d : Int) (ta sw tr : Bool) (s : LoopState) (q : Queries) :
    ((Sys.mk d false ta sw tr (.sampling s)).step .tickerFire).step (.iterate true q)
      = match loopBody d s (.tick q) with
        | .next s1 => Sys.mk d false ta sw false (.sampling s1)
        | .brk s1 => Sys.mk d false ta sw true (.rendering s1)
        | .fatal e _ => Sys.mk d false ta sw false (.fatal e) := by
  simp only [Sys.step, Sys.iterate, Phase.gone, selectWake]
  rfl

/-- The loop run on a list of wake-ups and the running program run on the events
of that list agree; the list may end in a stop and has none before. -/
theorem run_wakeTrace (d : Int) (ta : Bool) : ∀ (ws : List Wake) (s : LoopState),
    (∀ w ∈ ws.dropLast, w ≠ Wake.stop) →
    ((Sys.mk d false ta true false (.sampling s)).run (wakeTrace ws)).phase
      = (mainLoop d s ws).phase := by
  intro ws
  induction ws with
  | nil => intro s _; rfl
  | cons w ws ih =>
    intro s hns
    cases w with
    | stop =>
      cases ws with
      | nil => simp [wakeTrace, Sys.run, Sys.step, Sys.iterate, Phase.gone, closeStop,
          selectWake, loopBody_stop, mainLoop, LoopResult.phase]
      | cons w1 ws1 => exact absurd rfl (hns Wake.stop (by simp [List.dropLast]))
    | tick q =>
      have hrest : ∀ w ∈ ws.dropLast, w ≠ Wake.stop := by
        intro w hw
        apply hns w
        cases ws with
        | nil => simp at hw
        | cons w1 ws1 => simp [List.dropLast] at hw ⊢; right; exact hw
      have hst := step_tick d ta true false s q
      simp only [wakeTrace, run_cons, mainLoop]
      rw [hst]
      by_cases hq : q.succeeds = true
      · obtain ⟨s1, h1⟩ := loopBody_tick_succeeds d s q hq
        simp only [h1]
        exact ih s1 hrest
      · have hf : q.succeeds = false := by simpa using hq
        obtain ⟨e, s1, h1⟩ := loopBody_tick_fails d s q hf
        simp only [h1]
        rw [run_gone (wakeTrace ws) (Sys.mk d false ta true false (.fatal e)) rfl]
        rfl
/-- The same for the program as `start` leaves it. -/
theorem start_run_wakeTrace (cfg : Config) (hi : 0 < cfg.interval) (ws : List Wake)
    (h : ∀ w ∈ ws.dropLast, w ≠ Wake.stop) :
    ((start cfg (.ok ())).run (wakeTrace ws)).phase
      = (mainLoop cfg.interval LoopState.init ws).phase := by
  have hni : ¬ cfg.interval ≤ 0 := not_le.mpr hi
  have hs : start cfg (.ok ())
      = Sys.mk cfg.interval false (decide (0 < cfg.duration)) true false
          (.sampling LoopState.init) := by
    simp [start, hni]
  rw [hs]
  exact run_wakeTrace cfg.interval _ ws LoopState.init h

theorem run_instant_tick (d : Int) (ta sw tr : Bool) (s : LoopState) (c : Bool)
    (t : F64 × Nat) :
    (Sys.mk d false ta sw tr (.sampling s)).run (instant [.tickerFire] c t)
      = Sys.mk d false ta sw false (.sampling (sample d s t)) := by
  have hb := loopBody_okTick d s t
  simp only [okTick] at hb
  simp [instant, Sys.run, Sys.step, Sys.iterate, Phase.gone, selectWake, hb]

theorem run_instant_boundary (d : Int) (sw tr : Bool) (s : LoopState) (c : Bool)
    (t : F64 × Nat) :
    ((Sys.mk d false true sw tr (.sampling s)).run
        (instant [.timerFire, .tickerFire] c t)).phase
        = .rendering (if c then sample d s t else s) ∧
    ((Sys.mk d false true sw tr (.sampling s)).run
        (instant [.tickerFire, .timerFire] c t)).phase
        = .rendering (if c then sample d s t else s) := by
  have hb := loopBody_okTick d s t
  simp only [okTick] at hb
  cases c <;>
    simp [instant, Sys.run, Sys.step, Sys.iterate, Phase.gone, closeStop, selectWake,
      loopBody_stop, hb]

/-- C6, counterexample. With `-interval 1s -duration 3s`, ticks at 1s and 2s
taken by the loop, and at 3s the timer firing and the third tick arriving, the
`select` that finds both channels ready may take `stop`: the loop then ends
cleanly with two samples, not three. -/
theorem boundary_tick_excluded :
    ∃ s, ((start threeSeconds (.ok ())).run
        (threeSecondRun [.timerFire, .tickerFire] true true false
          (F64.ofNat 10, 100) (F64.ofNat 20, 300) (F64.ofNat 30, 200))).phase = .rendering s ∧
      s.timeSeries = [F64.ofNat 1, F64.ofNat 2] ∧
      s.cpuSeries.length = 2 ∧ s.memSeries.length = 2 := by
  refine ⟨{ cpuSeries := [F64.ofNat 10, F64.ofNat 20],
             memSeries := [F64.ofNat 100, F64.ofNat 300],
             timeSeries := [F64.ofNat 1, F64.ofNat 2],
             maxMem := F64.ofNat 300, gt := F64.ofNat 2 }, by decide, rfl, rfl, rfl⟩

/-- C6, as amended. With `-interval 1s -duration 3s`, no interrupt and no query
error, in a run in which the loop takes the ticks of 1s and 2s and at 3s both
the timer fires and the third tick arrives (in either order), the loop ends
cleanly with either two samples and the time series 1, 2 (`select` took `stop`)
or three samples and the time series 1, 2, 3 (`select` took the tick first);
the CPU and memory series hold the values of the ticks taken. -/
theorem boundary_tick_either (c1 c2 c3 : Bool) (t1 t2 t3 : F64 × Nat) :
    (∃ s, ((start threeSeconds (.ok ())).run
        (threeSecondRun [.timerFire, .tickerFire] c1 c2 c3 t1 t2 t3)).phase = .rendering s ∧
      s.timeSeries = (if c3 then [F64.ofNat 1, F64.ofNat 2, F64.ofNat 3]
        else [F64.ofNat 1, F64.ofNat 2]) ∧
      s.cpuSeries = (if c3 then [t1.1, t2.1, t3.1] else [t1.1, t2.1]) ∧
      s.memSeries = (if c3 then [F64.ofNat t1.2, F64.ofNat t2.2, F64.ofNat t3.2]
        else [F64.ofNat t1.2, F64.ofNat t2.2])) ∧
    (∃ s, ((start threeSeconds (.ok ())).run
        (threeSecondRun [.tickerFire, .timerFire] c1 c2 c3 t1 t2 t3)).phase = .rendering s ∧
      s.timeSeries = (if c3 then [F64.ofNat 1, F64.ofNat 2, F64.ofNat 3]
        else [F64.ofNat 1, F64.ofNat 2]) ∧
      s.cpuSeries = (if c3 then [t1.1, t2.1, t3.1] else [t1.1, t2.1]) ∧
      s.memSeries = (if c3 then [F64.ofNat t1.2, F64.ofNat t2.2, F64.ofNat t3.2]
        else [F64.ofNat t1.2, F64.ofNat t2.2])) := by
  have h0 : start threeSeconds (.ok ())
      = Sys.mk 1000000000 false true true false (.sampling LoopState.init) := by decide
  have e3 := run_instant_boundary 1000000000 true false
    (sample 1000000000 (sample 1000000000 LoopState.init t1) t2) c3 t3
  have ht2 : ([t1, t2].foldl (sample 1000000000) LoopState.init).timeSeries
      = [F64.ofNat 1, F64.ofNat 2] := by
    rw [foldl_sample_time]
    simp only [List.length_cons, List.length_nil, LoopState.init, List.nil_append]
    decide
  have ht3 : ([t1, t2, t3].foldl (sample 1000000000) LoopState.init).timeSeries
      = [F64.ofNat 1, F64.ofNat 2, F64.ofNat 3] := by
    rw [foldl_sample_time]
    simp only [List.length_cons, List.length_nil, LoopState.init, List.nil_append]
    decide
  have hc2 := foldl_sample_cpu 1000000000 [t1, t2] LoopState.init
  have hc3 := foldl_sample_cpu 1000000000 [t1, t2, t3] LoopState.init
  have hm2 := foldl_sample_mem 1000000000 [t1, t2] LoopState.init
  have hm3 := foldl_sample_mem 1000000000 [t1, t2, t3] LoopState.init
  simp only [List.foldl_cons, List.foldl_nil, LoopState.init, List.nil_append, List.map_cons,
    List.map_nil] at ht2 ht3 hc2 hc3 hm2 hm3
  simp only [threeSecondRun, run_append, h0, run_instant_tick]
  constructor
  · refine ⟨_, e3.1, ?_⟩
    cases c3
    · exact ⟨ht2, hc2, hm2⟩
    · exact ⟨ht3, hc3, hm3⟩
  · refine ⟨_, e3.2, ?_⟩
    cases c3
    · exact ⟨ht2, hc2, hm2⟩
    · exact ⟨ht3, hc3, hm3⟩

/-- C8, counterexample. After one sample an interrupt closes `stop` and the
ticker fires: the next iteration finds both channels ready, and when `select`
takes the tick the loop queries the process and appends a second sample although
`stop` was already closed. -/
theorem tick_taken_after_stop :
    ((start threeSeconds (.ok ())).run
      [.tickerFire, .iterate true (okQueries (F64.ofNat 10, 100)), .interrupt,
        .tickerFire]).stopClosed = true ∧
    ((start threeSeconds (.ok ())).run
      [.tickerFire, .iterate true (okQueries (F64.ofNat 10, 100)), .interrupt,
        .tickerFire]).phase
      = .sampling { cpuSeries := [F64.ofNat 10], memSeries := [F64.ofNat 100],
                    timeSeries := [F64.ofNat 1], maxMem := F64.ofNat 100, gt := F64.ofNat 1 } ∧
    ((start threeSeconds (.ok ())).run
      [.tickerFire, .iterate true (okQueries (F64.ofNat 10, 100)), .interrupt,
        .tickerFire, .iterate true (okQueries (F64.ofNat 20, 300))]).phase
      = .sampling { cpuSeries := [F64.ofNat 10, F64.ofNat 20],
                    memSeries := [F64.ofNat 100, F64.ofNat 300],
                    timeSeries := [F64.ofNat 1, F64.ofNat 2],
                    maxMem := F64.ofNat 300, gt := F64.ofNat 2 } := by
  refine ⟨by decide, by decide, by decide⟩

/-- C8, as amended. In an iteration of the loop that finds `stop` closed,
`select` does not block. When no tick is pending, or when `select` takes the
stop case, the loop is left with the series unchanged and no query made. When a
tick is pending and `select` takes it, the body of that one tick runs, the tick
is consumed, and if the body ends normally the next iteration leaves the loop
with the series as that tick left them. -/
theorem stop_observed (sys : Sys) (s : LoopState) (preferTick : Bool) (q : Queries)
    (hp : sys.phase = .sampling s) (hs : sys.stopClosed = true) :
    (sys.tickReady = false ∨ preferTick = false →
      sys.iterate preferTick q = { sys with phase := .rendering s }) ∧
    (sys.tickReady = true → preferTick = true →
      (sys.iterate preferTick q).tickReady = false ∧
      ((∃ e s1, loopBody sys.interval s (.tick q) = .fatal e s1 ∧
          (sys.iterate preferTick q).phase = .fatal e) ∨
       (∃ s1, loopBody sys.interval s (.tick q) = .next s1 ∧
          (sys.iterate preferTick q).phase = .sampling s1 ∧
          ∀ (c2 : Bool) (q2 : Queries),
            ((sys.iterate preferTick q).iterate c2 q2).phase = .rendering s1))) := by
  constructor
  · intro h
    rcases h with h | h
    · simp [Sys.iterate, hp, hs, h, selectWake, loopBody_stop]
    · cases ht : sys.tickReady <;>
        simp [Sys.iterate, hp, hs, h, ht, selectWake, loopBody_stop]
  · intro ht hc
    by_cases hq : q.succeeds = true
    · obtain ⟨s1, h1⟩ := loopBody_tick_succeeds sys.interval s q hq
      refine ⟨by simp [Sys.iterate, hp, hs, ht, hc, selectWake, h1], Or.inr ⟨s1, h1, ?_, ?_⟩⟩
      · simp [Sys.iterate, hp, hs, ht, hc, selectWake, h1]
      · intro c2 q2
        simp [Sys.iterate, hp, hs, ht, hc, selectWake, h1, loopBody_stop]
    · have hf : q.succeeds = false := by simpa using hq
      obtain ⟨e, s1, h1⟩ := loopBody_tick_fails sys.interval s q hf
      exact ⟨by simp [Sys.iterate, hp, hs, ht, hc, selectWake, h1],
        Or.inl ⟨e, s1, h1, by simp [Sys.iterate, hp, hs, ht, hc, selectWake, h1]⟩⟩

/-- C8, witness: with `stop` closed by the timer and no tick pending, the
iteration leaves the loop with the empty series. -/
theorem stop_observed_witness :
    ((start threeSeconds (.ok ())).step .timerFire).iterate true (okQueries (F64.ofNat 10, 100))
      = { (start threeSeconds (.ok ())).step .timerFire with
          phase := .rendering LoopState.init } :=
  (stop_observed ((start threeSeconds (.ok ())).step .timerFire) LoopState.init true
    (okQueries (F64.ofNat 10, 100)) (by decide) (by decide)).1 (Or.inl (by decide))

/-- C9, the code at the failing input. With `-interval 1s -duration 3s`, when
the timer fires and an interrupt is delivered, in either order, the second
`close(stop)` panics; so it does when the interrupt arrives after the loop has
been left on the timer and before the chart is written. -/
theorem stop_double_close_panics :
    ((start threeSeconds (.ok ())).run [.timerFire, .interrupt]).phase
      = .panicked closePanic ∧
    ((start threeSeconds (.ok ())).run [.interrupt, .timerFire]).phase
      = .panicked closePanic ∧
    ((start threeSeconds (.ok ())).run
      [.tickerFire, .iterate true (okQueries (F64.ofNat 10, 100)),
        .tickerFire, .iterate true (okQueries (F64.ofNat 20, 300)),
        .timerFire, .iterate false (okQueries (F64.ofNat 30, 200)),
        .interrupt, .finish (.ok ()) (.ok ())]).phase
      = .panicked closePanic := by
  refine ⟨by decide, by decide, by decide⟩

end Procchart
